import Mathlib

/-!
Verification of the focusd interception data plane against its design
specification.  Go strings and byte slices are embedded as `List Nat`
(byte values); fallible operations return sum types; the runtime panic a
Go out-of-range slice would raise is made explicit as a `.crash` result.
-/

namespace Focusd

/-- ASCII lowercase mapping on one byte, as Go `strings.ToLower` acts on
ASCII input. -/
def lowerByte (b : Nat) : Nat := if 65 ≤ b ∧ b ≤ 90 then b + 32 else b

/-- Go `strings.ToLower` on an ASCII byte string. -/
def toLowerBytes (l : List Nat) : List Nat := l.map lowerByte

/-- Go `strings.TrimSuffix(s, ".")`: removes one trailing dot (byte 46)
if present. -/
def trimDot (l : List Nat) : List Nat :=
  if l.getLast? = some 46 then l.dropLast else l

/-- The hostname normalisation both sides of `isBlocked` apply:
`strings.ToLower(strings.TrimSuffix(s, "."))`. -/
def normalize (l : List Nat) : List Nat := toLowerBytes (trimDot l)

/-- Go `strings.HasPrefix p l` on byte strings (argument order: pattern
first). -/
def hasPrefB (p l : List Nat) : Bool := l.take p.length == p

/-- Go `strings.HasSuffix` on byte strings (pattern first). -/
def hasSufB (s l : List Nat) : Bool := l.drop (l.length - s.length) == s

/-- Go `unicode.IsSpace` restricted to the ASCII whitespace bytes. -/
def isWS (b : Nat) : Bool := b = 32 || b = 9 || b = 10 || b = 11 || b = 12 || b = 13

/-- Go `strings.TrimSpace` on ASCII byte strings. -/
def trimSpace (l : List Nat) : List Nat :=
  ((l.dropWhile isWS).reverse.dropWhile isWS).reverse

/-- Byte values of a Lean string literal (used only for ASCII text). -/
def str2bytes (s : String) : List Nat := s.data.map Char.toNat

/-- Big-endian 16-bit read, `binary.BigEndian.Uint16`. -/
def be16 (a b : Nat) : Nat := a * 256 + b

/-- The four error values of `internal/sni/parser.go`. -/
inductive SNIErr where
  | notHandshake | notClientHello | noSNI | invalidData
deriving DecidableEq

/-- Result of `ExtractSNI`: a hostname, one of the four errors, or the
runtime panic an unchecked out-of-range slice raises. -/
inductive SNIResult where
  | ok (host : List Nat)
  | err (e : SNIErr)
  | crash
deriving DecidableEq

/-- `parseSNIExtension` from `internal/sni/parser.go`.  The two-byte
server-name-list length is read but ignored by the source, so it is not
modelled as a binding. -/
def parseSNIExtension (d : List Nat) : SNIResult :=
  if d.length < 5 then .err .invalidData
  else if 2 ≥ d.length then .err .invalidData
  else match d.get? 2 with
  | none => .crash
  | some nameType =>
    if nameType ≠ 0 then .err .noSNI
    else if 3 + 2 > d.length then .err .invalidData
    else match d.get? 3, d.get? 4 with
    | some n1, some n2 =>
      let nameLength := be16 n1 n2
      if 5 + nameLength > d.length then .err .invalidData
      else
        let hostname := (d.drop 5).take nameLength
        if hostname = [] then .err .noSNI else .ok hostname
    | _, _ => .crash

/-- The extension-iteration loop of `ExtractSNI` (source lines 103-119).
Each iteration reads the four header bytes `data[pos:pos+2]` and
`data[pos+2:pos+4]` with no check against `len(data)`; the source only
compares `pos+4` against `extEnd`.  An out-of-range read is `.crash`.
`fuel` is an upper bound on the number of iterations: the loop advances
`pos` by at least 4 each time, so `extEnd + 1` iterations always suffice
and the fuel-exhausted branch is unreachable at the call site. -/
def parseExtensions (d : List Nat) (fuel pos extEnd : Nat) : SNIResult :=
  match fuel with
  | 0 => .err .noSNI
  | f + 1 =>
    if pos + 4 ≤ extEnd then
      match d.get? pos, d.get? (pos + 1), d.get? (pos + 2), d.get? (pos + 3) with
      | some t1, some t2, some l1, some l2 =>
        let extType := be16 t1 t2
        let extLength := be16 l1 l2
        let pos1 := pos + 4
        if pos1 + extLength > d.length then .err .invalidData
        else if extType = 0 then parseSNIExtension ((d.drop pos1).take extLength)
        else parseExtensions d f (pos1 + extLength) extEnd
      | _, _, _, _ => .crash
    else .err .noSNI

/-- `ExtractSNI` from `internal/sni/parser.go`.  `recordLength` is a Go
`uint16`, so the source's `int(5 + recordLength)` wraps modulo 2^16
before the comparison. -/
def ExtractSNI (data : List Nat) : SNIResult :=
  if data.length < 5 then .err .invalidData
  else match data.get? 0, data.get? 3, data.get? 4 with
  | some contentType, some r1, some r2 =>
    let recordLength := be16 r1 r2
    if contentType ≠ 0x16 then .err .notHandshake
    else if data.length < (5 + recordLength) % 65536 then .err .invalidData
    else if data.length < 9 then .err .invalidData
    else match data.get? 5 with
    | none => .crash
    | some handshakeType =>
      if handshakeType ≠ 0x01 then .err .notClientHello
      else
        -- pos = 9, then +2 (client version) and +32 (random)
        if 43 ≥ data.length then .err .invalidData
        else match data.get? 43 with
        | none => .crash
        | some sessionIDLength =>
          let p1 := 43 + 1 + sessionIDLength
          if p1 + 2 > data.length then .err .invalidData
          else match data.get? p1, data.get? (p1 + 1) with
          | some c1, some c2 =>
            let cipherSuitesLength := be16 c1 c2
            let p2 := p1 + 2 + cipherSuitesLength
            if p2 ≥ data.length then .err .invalidData
            else match data.get? p2 with
            | none => .crash
            | some compressionMethodsLength =>
              let p3 := p2 + 1 + compressionMethodsLength
              if p3 + 2 > data.length then .err .invalidData
              else match data.get? p3, data.get? (p3 + 1) with
              | some e1, some e2 =>
                let extensionsLength := be16 e1 e2
                let p4 := p3 + 2
                let extEnd := p4 + extensionsLength
                parseExtensions data (extEnd + 1) p4 extEnd
              | _, _ => .crash
          | _, _ => .crash
  | _, _, _ => .crash

/-- `isBlocked` from `internal/proxy/proxy.go`: normalises the host and
each rule, then tests exact or subdomain match, additionally trying the
bare form of a `www.`-prefixed rule.  The Go loop returns on the first
matching rule, which is `List.any`. -/
def isBlocked (host : List Nat) (rules : List (List Nat)) : Bool :=
  let h := normalize host
  rules.any fun r =>
    let b := normalize r
    (h == b || hasSufB (46 :: b) h)
      || (hasPrefB (str2bytes "www.") b
            && (h == b.drop 4 || hasSufB (46 :: b.drop 4) h))

/-- What a handler does with the connection after classification. -/
inductive Verdict where
  | forward (initialData : List Nat)
  | close
  | crashed
deriving DecidableEq

/-- The 7-byte TLS alert record `sendTLSAlert` writes:
content type alert (0x15), version 3.3, length 2, level warning (0x01),
description close_notify (0x00). -/
def tlsAlert : List Nat := [0x15, 0x03, 0x03, 0x00, 0x02, 0x01, 0x00]

/-- `handleHTTPS` from `internal/proxy/proxy.go`, starting after the
first read: `clientHello` is the byte prefix read from the client.
Returns the verdict and the bytes written back to the client before any
splicing.  A parser panic kills the handler before it writes or dials. -/
def handleHTTPS (clientHello : List Nat) (rules : List (List Nat)) :
    Verdict × List Nat :=
  match ExtractSNI clientHello with
  | .crash => (.crashed, [])
  | .err _ => (.close, tlsAlert)
  | .ok hostname =>
    if isBlocked hostname rules then (.close, tlsAlert)
    else (.forward clientHello, [])

/-- Go `bufio.Reader.ReadString('\n')` on a finite client stream:
returns the line including the delimiter and the remaining stream, or
`none` when no newline arrives before EOF (the source treats that error
as fatal for the line being read). -/
def readLine (s : List Nat) : Option (List Nat × List Nat) :=
  if 10 ∈ s then
    some (s.takeWhile (· != 10) ++ [10], (s.dropWhile (· != 10)).drop 1)
  else none

/-- The header loop of `handleHTTP` (source lines 206-215).  Returns the
raw Host value found (empty if none) and the bytes the loop consumed
from the stream.  `fuel` bounds the iterations; each line read consumes
at least one byte, so `s.length + 1` always suffices. -/
def readHeaders (fuel : Nat) (s : List Nat) : List Nat × List Nat :=
  match fuel with
  | 0 => ([], [])
  | f + 1 =>
    match readLine s with
    | none => ([], s)
    | some (line, rest) =>
      if line = [13, 10] || line = [10] then ([], line)
      else if hasPrefB (str2bytes "host:") (toLowerBytes line) then
        -- strings.TrimSpace(strings.SplitN(line, ":", 2)[1])
        (trimSpace ((line.dropWhile (· != 58)).drop 1), line)
      else
        let (h, c) := readHeaders f rest
        (h, line ++ c)

/-- Outcome of parsing the head of an HTTP request stream: the request
line (if one was read), the Host value after the `:port` strip (if one
was found and non-empty), and every byte consumed from the client. -/
structure HTTPParse where
  reqLine : Option (List Nat)
  host : Option (List Nat)
  consumed : List Nat
deriving DecidableEq

/-- The read-and-parse phase of `handleHTTP` (source lines 196-226). -/
def httpParse (stream : List Nat) : HTTPParse :=
  match readLine stream with
  | none => ⟨none, none, stream⟩
  | some (rl, rest) =>
    let hc := readHeaders (rest.length + 1) rest
    let host := hc.1
    if host = [] then ⟨some rl, none, rl ++ hc.2⟩
    else ⟨some rl, some (host.takeWhile (· != 58)), rl ++ hc.2⟩

/-- The full 403 response `handleHTTP` writes on a blocked verdict. -/
def resp403 : List Nat := str2bytes
  "HTTP/1.1 403 Forbidden\r\nContent-Type: text/html\r\nConnection: close\r\n\r\n<html><body><h1>403 Forbidden</h1><p>Blocked by focusd</p></body></html>"

/-- Result of the HTTP handler: bytes consumed from the client, bytes
written back to the client, and the verdict. -/
structure HTTPOut where
  consumed : List Nat
  written : List Nat
  verdict : Verdict
deriving DecidableEq

/-- `handleHTTP` from `internal/proxy/proxy.go`, starting after the
original-destination recovery.  On the forward path the source passes
only `[]byte(requestLine)` to `forwardConnection` as the initial data
replayed upstream. -/
def handleHTTP (stream : List Nat) (rules : List (List Nat)) : HTTPOut :=
  let p := httpParse stream
  match p.reqLine, p.host with
  | none, _ => ⟨p.consumed, [], .close⟩
  | some _, none => ⟨p.consumed, [], .close⟩
  | some rl, some h =>
    if isBlocked h rules then ⟨p.consumed, resp403, .close⟩
    else ⟨p.consumed, [], .forward rl⟩

/-! ## State store (`internal/state`)

The file system visible to one `State` value is the content of its state
file: `none` when the file is absent, `some bytes` when present.  I/O
errors other than absence are outside the model. -/

/-- The token `"enabled"`. -/
def enabledTok : List Nat := str2bytes "enabled"

/-- The token `"disabled"`. -/
def disabledTok : List Nat := str2bytes "disabled"

/-- `State.IsEnabled`: absent file defaults to enabled; otherwise the
whitespace-trimmed content is compared with `"enabled"`.  No error is
possible once the read has succeeded or reported absence. -/
def IsEnabled (fs : Option (List Nat)) : Except (List Nat) Bool :=
  match fs with
  | none => .ok true
  | some data => .ok (trimSpace data == enabledTok)

/-- `State.SetEnabled`: writes the token plus a newline, replacing
whatever the file held. -/
def SetEnabled (b : Bool) (_fs : Option (List Nat)) : Option (List Nat) :=
  some ((if b then enabledTok else disabledTok) ++ [10])

/-! ## Blocklist loading (`internal/config`) -/

/-- The ways `Config.LoadBlocklist` can fail. -/
inductive LoadErr where
  | noPath        -- no blocklist path configured
  | readFail      -- reading or parsing the blocklist file failed
  | noDomains     -- "blocklist file contains no domains"
deriving DecidableEq

/-- The configuration fields `LoadBlocklist` consults. -/
structure Cfg where
  blockedDomains : List (List Nat)
  blocklistPath : List Nat
deriving DecidableEq

/-- `Config.LoadBlocklist`: the inline list wins when non-empty;
otherwise the blocklist file is read and parsed (`blocklistFile` is its
parsed `domains` list, `none` for a read or parse failure), and an empty
`domains` list is rejected with an error. -/
def LoadBlocklist (c : Cfg) (blocklistFile : Option (List (List Nat))) :
    Except LoadErr (List (List Nat)) :=
  if c.blockedDomains ≠ [] then .ok c.blockedDomains
  else if c.blocklistPath = [] then .error .noPath
  else match blocklistFile with
  | none => .error .readFail
  | some domains =>
    if domains = [] then .error .noDomains else .ok domains

/-! ## Resolver (`internal/resolver`)

The system name resolver is an oracle mapping a domain name to `some`
list of IP addresses in textual form, or `none` for a lookup error.
`Resolve` additionally records, in order, every name it handed to the
oracle, so that statements about which names are queried can be made. -/

/-- Insertion into the deduplicating accumulator (the Go code keys a map
by `ip.String()`; membership is what survives the map). -/
def insertIP (acc : List (List Nat)) (ip : List Nat) : List (List Nat) :=
  if ip ∈ acc then acc else acc ++ [ip]

/-- Inserting a batch of looked-up addresses. -/
def insertIPs (acc : List (List Nat)) (ips : List (List Nat)) : List (List Nat) :=
  ips.foldl insertIP acc

/-- The body of the `for _, domain := range domains` loop of
`Resolver.Resolve`: the state is (queried names, deduplicated IPs).  A
failed base lookup `continue`s — the `www.` variant is not queried. -/
def resolveStep (oracle : List Nat → Option (List (List Nat)))
    (acc : List (List Nat) × List (List Nat)) (d : List Nat) :
    List (List Nat) × List (List Nat) :=
  let q := acc.1 ++ [d]
  match oracle d with
  | none => (q, acc.2)
  | some ips =>
    let s := insertIPs acc.2 ips
    if hasPrefB (str2bytes "www.") d then (q, s)
    else
      match oracle (str2bytes "www." ++ d) with
      | none => (q ++ [str2bytes "www." ++ d], s)
      | some ips2 => (q ++ [str2bytes "www." ++ d], insertIPs s ips2)

/-- `Resolver.Resolve` with its query trace: first component the names
queried, second the resulting address list. -/
def ResolveT (oracle : List Nat → Option (List (List Nat)))
    (domains : List (List Nat)) : List (List Nat) × List (List Nat) :=
  domains.foldl (resolveStep oracle) ([], [])

/-- `Resolver.Resolve`: the returned address list. -/
def Resolve (oracle : List Nat → Option (List (List Nat)))
    (domains : List (List Nat)) : List (List Nat) :=
  (ResolveT oracle domains).2

/-! ## Spec-side predicates -/

/-- The match semantics as the specification words them: some rule `r`
in the set — or, when `r` begins with `"www."`, its bare form `r[4:]` —
equals `h` or is a dot-separated suffix of `h`, all after both sides are
lowercased with one trailing dot stripped (`normalize`). -/
def SpecBlocked (host : List Nat) (rules : List (List Nat)) : Prop :=
  ∃ r ∈ rules,
    (normalize host = normalize r
       ∨ ∃ t, t ++ (46 :: normalize r) = normalize host)
    ∨ ((∃ t, str2bytes "www." ++ t = normalize r)
        ∧ (normalize host = (normalize r).drop 4
             ∨ ∃ t, t ++ (46 :: (normalize r).drop 4) = normalize host))

/-- `x` occurs verbatim as a contiguous byte segment of `l`. -/
def SubSeg (x l : List Nat) : Prop := ∃ s t, s ++ x ++ t = l

/-! ## Concrete inputs used by witnesses and counterexamples -/

/-- A minimal well-formed ClientHello whose SNI value is the raw bytes
`"A.com."` (uppercase first letter, trailing dot). -/
def chA : List Nat :=
  [0x16, 3, 3, 0, 62, 1, 0, 0, 58, 3, 3] ++ List.replicate 32 0 ++
  [0] ++ [0, 2, 0, 47] ++ [1, 0] ++ [0, 15] ++
  [0, 0, 0, 11, 0, 9, 0, 0, 6, 65, 46, 99, 111, 109, 46]

/-- The raw SNI bytes of `chA`: `"A.com."`. -/
def hostAdot : List Nat := [65, 46, 99, 111, 109, 46]

/-- A 49-byte input that passes every check of `ExtractSNI` up to the
extensions vector with an extensions length of 0xFFFF and no bytes
behind it, driving the extension loop past the end of the input. -/
def badInput : List Nat :=
  [0x16, 3, 1, 0, 1, 1, 0, 0, 0] ++ List.replicate 34 0 ++
  [0] ++ [0, 0] ++ [0] ++ [255, 255]

/-- The bytes of `"a.com"`. -/
def acom : List Nat := [97, 46, 99, 111, 109]

/-- A record that is not a TLS handshake (content type 0x17). -/
def d17 : List Nat := [0x17, 3, 3, 0, 0]

/-- An HTTP request head with a Host header. -/
def httpReq : List Nat := str2bytes "GET / HTTP/1.1\r\nHost: a.com\r\n\r\n"

/-- An HTTP request head whose Host value carries uppercase and a
trailing dot. -/
def httpReqUpper : List Nat := str2bytes "GET / HTTP/1.1\r\nHost: A.com.\r\n\r\n"

/-- An HTTP request head with no Host header at all. -/
def noHostReq : List Nat := str2bytes "GET / HTTP/1.1\r\n\r\n"

/-- The request line of `httpReq` and `httpReqUpper`. -/
def reqLineA : List Nat := str2bytes "GET / HTTP/1.1\r\n"

/-- The Host header line of `httpReq`. -/
def hostLineA : List Nat := str2bytes "Host: a.com\r\n"

/-- A configuration with no inline domains and a blocklist path. -/
def cfgFileOnly : Cfg := ⟨[], str2bytes "/etc/focusd/blocklist.yml"⟩

/-- A configuration with one inline domain. -/
def cfgInline : Cfg := ⟨[acom], []⟩

/-- A name-resolution oracle on which `"a.com"` fails but
`"www.a.com"` resolves to one address. -/
def o9 : List Nat → Option (List (List Nat)) :=
  fun d => if d = str2bytes "www." ++ acom then some [[1]] else none

/-! ## Helper lemmas -/

lemma hasPrefB_iff (p l : List Nat) : hasPrefB p l = true ↔ ∃ t, p ++ t = l := by
  unfold hasPrefB
  rw [beq_iff_eq]
  constructor
  · intro h
    have hd := List.take_append_drop p.length l
    rw [h] at hd
    exact ⟨l.drop p.length, hd⟩
  · rintro ⟨t, rfl⟩
    exact List.take_left _ _

lemma hasSufB_iff (s l : List Nat) : hasSufB s l = true ↔ ∃ t, t ++ s = l := by
  unfold hasSufB
  rw [beq_iff_eq]
  constructor
  · intro h
    refine ⟨l.take (l.length - s.length), ?_⟩
    conv_rhs => rw [← List.take_append_drop (l.length - s.length) l]
    rw [h]
  · rintro ⟨t, rfl⟩
    have hlen : (t ++ s).length - s.length = t.length := by
      simp [List.length_append]
    rw [hlen]
    exact List.drop_left _ _

lemma subSeg_take (n : Nat) (l : List Nat) : SubSeg (l.take n) l :=
  ⟨[], l.drop n, by simp⟩

lemma subSeg_drop (n : Nat) (l : List Nat) : SubSeg (l.drop n) l :=
  ⟨l.take n, [], by simp⟩

lemma subSeg_trans {a b c : List Nat} (h1 : SubSeg a b) (h2 : SubSeg b c) :
    SubSeg a c := by
  obtain ⟨s1, t1, rfl⟩ := h1
  obtain ⟨s2, t2, rfl⟩ := h2
  exact ⟨s2 ++ s1, t1 ++ t2, by simp⟩

lemma subSeg_takeWhile (p : Nat → Bool) (l : List Nat) :
    SubSeg (l.takeWhile p) l :=
  ⟨[], l.dropWhile p, by simp [List.takeWhile_append_dropWhile]⟩

lemma subSeg_dropWhile (p : Nat → Bool) (l : List Nat) :
    SubSeg (l.dropWhile p) l :=
  ⟨l.takeWhile p, [], by simp [List.takeWhile_append_dropWhile]⟩

lemma subSeg_trimSpace (l : List Nat) : SubSeg (trimSpace l) l := by
  have h1 : SubSeg (trimSpace l) (l.dropWhile isWS) := by
    refine ⟨[], (((l.dropWhile isWS).reverse.takeWhile isWS)).reverse, ?_⟩
    simp only [trimSpace, List.nil_append]
    rw [← List.reverse_append, List.takeWhile_append_dropWhile, List.reverse_reverse]
  exact subSeg_trans h1 (subSeg_dropWhile _ _)

lemma parseSNIExtension_subSeg {d h : List Nat}
    (hyp : parseSNIExtension d = .ok h) : SubSeg h d := by
  unfold parseSNIExtension at hyp
  repeat' first
    | split at hyp
    | (dsimp only at hyp; split at hyp)
  all_goals cases hyp
  all_goals exact subSeg_trans (subSeg_take _ _) (subSeg_drop _ _)

lemma parseExtensions_subSeg {d h : List Nat} :
    ∀ fuel pos extEnd, parseExtensions d fuel pos extEnd = .ok h → SubSeg h d := by
  intro fuel
  induction fuel with
  | zero => intro pos extEnd hyp; cases hyp
  | succ f ih =>
    intro pos extEnd hyp
    unfold parseExtensions at hyp
    repeat' first
      | split at hyp
      | (dsimp only at hyp; split at hyp)
    all_goals first
      | cases hyp
      | exact ih _ _ hyp
      | exact subSeg_trans (parseSNIExtension_subSeg hyp)
          (subSeg_trans (subSeg_take _ _) (subSeg_drop _ _))

lemma extractSNI_subSeg {data h : List Nat}
    (hyp : ExtractSNI data = .ok h) : SubSeg h data := by
  unfold ExtractSNI at hyp
  repeat' first
    | split at hyp
    | (dsimp only at hyp; split at hyp)
  all_goals first
    | cases hyp
    | exact parseExtensions_subSeg _ _ _ hyp

lemma dropWhile_head_newline (s : List Nat) (h10 : 10 ∈ s) :
    s.dropWhile (· != 10) = 10 :: (s.dropWhile (· != 10)).tail := by
  induction s with
  | nil => cases h10
  | cons a s ih =>
    by_cases ha : a = 10
    · subst ha
      simp [List.dropWhile]
    · have hne : (a != 10) = true := by simpa using ha
      have h10' : 10 ∈ s := by
        rcases List.mem_cons.mp h10 with h | h
        · exact absurd h.symm ha
        · exact h
      simp only [List.dropWhile, hne]
      exact ih h10'

lemma readLine_eq {s line rest : List Nat}
    (h : readLine s = some (line, rest)) : line ++ rest = s := by
  unfold readLine at h
  split at h
  · rename_i h10
    injection h with h'
    injection h' with h1 h2
    subst h1; subst h2
    rw [List.drop_one, List.append_assoc, List.singleton_append]
    rw [← dropWhile_head_newline s h10]
    exact List.takeWhile_append_dropWhile _ _
  · cases h

lemma readHeaders_subSeg :
    ∀ (fuel : Nat) (s hv c : List Nat), readHeaders fuel s = (hv, c) →
      hv ≠ [] → SubSeg hv s := by
  intro fuel
  induction fuel with
  | zero =>
    intro s hv c h hne
    injection h with h1 _
    exact absurd h1.symm hne
  | succ f ih =>
    intro s hv c h hne
    unfold readHeaders at h
    cases hRL : readLine s with
    | none =>
      rw [hRL] at h
      injection h with h1 _
      exact absurd h1.symm hne
    | some p =>
      obtain ⟨line, rest⟩ := p
      have hLR := readLine_eq hRL
      rw [hRL] at h
      dsimp only at h
      split at h
      · injection h with h1 _
        exact absurd h1.symm hne
      split at h
      · -- Host header line found
        injection h with h1 _
        subst h1
        refine subSeg_trans ?_ (⟨[], rest, by simpa using hLR⟩ : SubSeg line s)
        exact subSeg_trans (subSeg_trimSpace _)
          (subSeg_trans (subSeg_drop 1 _) (subSeg_dropWhile _ _))
      · -- other header line: recurse
        rcases hRec : readHeaders f rest with ⟨hv', c'⟩
        rw [hRec] at h
        dsimp only at h
        injection h with h1 _
        subst h1
        have hs := ih rest hv' c' hRec hne
        exact subSeg_trans hs ⟨line, [], by simpa using hLR⟩

lemma httpParse_host_subSeg {s hn : List Nat}
    (h : (httpParse s).host = some hn) : SubSeg hn s := by
  unfold httpParse at h
  cases hRL : readLine s with
  | none => rw [hRL] at h; cases h
  | some p =>
    obtain ⟨rl, rest⟩ := p
    have hLR := readLine_eq hRL
    rw [hRL] at h
    dsimp only at h
    rcases hRH : readHeaders (rest.length + 1) rest with ⟨hv, c⟩
    rw [hRH] at h
    dsimp only at h
    split at h
    · cases h
    · rename_i hvne
      injection h with h1
      subst h1
      have hsub : SubSeg hv rest :=
        readHeaders_subSeg _ rest hv c hRH hvne
      exact subSeg_trans (subSeg_trans (subSeg_takeWhile _ _) hsub)
        ⟨rl, [], by simpa using hLR⟩

lemma httpParse_reqLine_of_host {s hn : List Nat}
    (h : (httpParse s).host = some hn) : ∃ rl, (httpParse s).reqLine = some rl := by
  unfold httpParse at h ⊢
  cases hRL : readLine s with
  | none => rw [hRL] at h; cases h
  | some p =>
    obtain ⟨rl, rest⟩ := p
    rw [hRL] at h
    dsimp only at h ⊢
    rcases hRH : readHeaders (rest.length + 1) rest with ⟨hv, c⟩
    dsimp only at h ⊢
    split at h
    · cases h
    · rename_i hvne
      rw [hRH] at hvne
      dsimp only at hvne
      rw [if_neg hvne]
      exact ⟨rl, rfl⟩

/-- Claim C1: for every client input that is not a well-formed TLS
ClientHello carrying an SNI extension that names an unblocked host, the
HTTPS connection handler never reaches the upstream dial
(`forwardConnection`): extraction failure, a parser crash, and a blocked
verdict all end the handler with no `forward` verdict. -/
theorem https_fail_closed (data : List Nat) (rules : List (List Nat))
    (h : ∀ hn, ExtractSNI data = .ok hn → isBlocked hn rules = true) :
    ∀ init, (handleHTTPS data rules).1 ≠ .forward init := by
  intro init
  unfold handleHTTPS
  cases hE : ExtractSNI data with
  | crash => simp
  | err e => simp
  | ok hn => simp [h hn hE]

/-- Witness for claim C1 at a non-handshake input. -/
theorem https_fail_closed_w :
    (handleHTTPS d17 []).1 ≠ .forward [] :=
  https_fail_closed d17 [] (fun _ hE => nomatch hE) []

/-- Claim C2: `isBlocked(h, rules)` returns true exactly when some rule
`r` in `rules` — or, when `r` begins with `"www."`, its bare form
`r[4:]` — equals `h` or is a `"." `-separated suffix of `h`, both sides
compared lowercased with a trailing dot stripped. -/
theorem isBlocked_iff_specBlocked (host : List Nat) (rules : List (List Nat)) :
    isBlocked host rules = true ↔ SpecBlocked host rules := by
  simp only [isBlocked, SpecBlocked, List.any_eq_true, Bool.or_eq_true,
    Bool.and_eq_true, beq_iff_eq, hasPrefB_iff, hasSufB_iff]

/-- Witness for claim C2: a subdomain match under one rule. -/
theorem isBlocked_iff_specBlocked_w :
    SpecBlocked (str2bytes "old.reddit.com") [str2bytes "reddit.com"] :=
  (isBlocked_iff_specBlocked (str2bytes "old.reddit.com")
    [str2bytes "reddit.com"]).mp (by decide)

/-- Claim C3 is false of the code: `ExtractSNI` is not memory-safe.  On
`badInput` every check of the source passes until the extension loop,
whose four header-byte reads are bounds-checked only against the
attacker-controlled `extensionsEnd`, not against `len(data)`; the read
`data[49:51]` on the 49-byte input is out of range and panics (modelled
as `.crash`), rather than returning one of the four errors. -/
theorem extractSNI_oob_crash : ExtractSNI badInput = .crash := by decide

/-- Claim C4 is false of the code on the HTTP path: on the allowed flow
`httpReq` the handler has consumed the request line and the Host header
line from the client, yet the initial data handed to
`forwardConnection` is only the request line, so the consumed Host
header bytes are dropped.  (On the TLS path the whole first-read buffer
is replayed, as the last conjunct shows.) -/
theorem http_forward_drops_consumed_bytes :
    (handleHTTP httpReq []).verdict = .forward reqLineA ∧
    (handleHTTP httpReq []).consumed = reqLineA ++ hostLineA ∧
    reqLineA ≠ reqLineA ++ hostLineA ∧
    (handleHTTPS chA []).1 = .forward chA := by decide

/-- Claim C6 is false of the code in its first conjunct: with no inline
domains, a blocklist file that parses to zero domains makes
`LoadBlocklist` fail with "blocklist file contains no domains" instead
of succeeding with the empty rule set. -/
theorem loadBlocklist_empty_rejected :
    LoadBlocklist cfgFileOnly (some []) = .error .noDomains ∧
    LoadBlocklist cfgFileOnly (some []) ≠ .ok [] :=
  ⟨rfl, fun h => nomatch h⟩

/-- Claim C6 as amended: `LoadBlocklist` never succeeds with an empty
rule set — an empty blocklist is rejected as an error, not treated as an
operative configuration — while the matcher under the empty rule set
blocks no hostname. -/
theorem loadBlocklist_ok_nonempty (c : Cfg) (f : Option (List (List Nat)))
    (ds : List (List Nat)) :
    (LoadBlocklist c f = .ok ds → ds ≠ []) ∧
    (∀ hn, isBlocked hn [] = false) := by
  constructor
  · intro h
    unfold LoadBlocklist at h
    split at h
    · rename_i hne
      cases h
      exact hne
    split at h
    · cases h
    split at h
    · cases h
    · split at h
      · cases h
      · rename_i hND
        cases h
        exact hND
  · intro hn
    rfl

/-- Witness for claim C6's amended theorem at an inline one-rule
configuration. -/
theorem loadBlocklist_ok_nonempty_w :
    LoadBlocklist cfgInline none = .ok [acom] ∧ [acom] ≠ [] :=
  ⟨rfl, (loadBlocklist_ok_nonempty cfgInline none [acom]).1 rfl⟩

/-- Claim C8: the state store round-trips — `SetEnabled b` followed by
`IsEnabled` returns `b` without error, over any prior file content (a
restart changes nothing: the store's only state is the file) — and when
the state file is absent `IsEnabled` returns enabled. -/
theorem state_roundtrip (b : Bool) (fs : Option (List Nat)) :
    IsEnabled (SetEnabled b fs) = .ok b ∧ IsEnabled none = .ok true := by
  cases b <;> exact ⟨rfl, rfl⟩

/-- Witness for claim C8 at `b = false` over an absent file. -/
theorem state_roundtrip_w :
    IsEnabled (SetEnabled false none) = .ok false ∧ IsEnabled none = .ok true :=
  state_roundtrip false none

/-- Claim C10: when the state file exists but its whitespace-trimmed
content is anything other than `"enabled"`, `IsEnabled` returns
`(false, nil)` — disabled with no error. -/
theorem state_unknown_token_reads_disabled (data : List Nat)
    (h : trimSpace data ≠ enabledTok) : IsEnabled (some data) = .ok false := by
  simp only [IsEnabled]
  rw [beq_eq_false_iff_ne.mpr h]

/-- Witness for claim C10 at the content `"garbage"`. -/
theorem state_unknown_token_reads_disabled_w :
    trimSpace (str2bytes "garbage") ≠ enabledTok ∧
    IsEnabled (some (str2bytes "garbage")) = .ok false :=
  ⟨by decide, state_unknown_token_reads_disabled _ (by decide)⟩

/-- Claim C5 is false of the code at two points: on the HTTP path with
no Host header the handler writes nothing at all (no 403), and the
7-byte TLS record the blocked path writes carries alert level 0x01
(warning, close_notify), not the fatal level 0x02 the claim asserts. -/
theorem blocked_closer_shape_counter :
    (handleHTTP noHostReq []).written = [] ∧
    hasPrefB (str2bytes "HTTP/1.1 403 Forbidden") (handleHTTP noHostReq []).written = false ∧
    (handleHTTPS chA [acom]).2 = tlsAlert ∧
    ¬ tlsAlert.get? 5 = some 2 := by decide

/-- Claim C5 as amended: on the TLS path a failed extraction or a
blocked verdict writes exactly the 7-byte warning-level close_notify
alert record; on the HTTP path a blocked verdict writes the full 403
response, whose bytes begin with "HTTP/1.1 403 Forbidden", while a
missing Host header closes the connection with nothing written. -/
theorem blocked_closer_shape (data stream : List Nat) (rules : List (List Nat)) :
    ((∃ e, ExtractSNI data = .err e) ∨
        (∃ hn, ExtractSNI data = .ok hn ∧ isBlocked hn rules = true) →
      (handleHTTPS data rules).2 = tlsAlert) ∧
    (∀ hn, (httpParse stream).host = some hn → isBlocked hn rules = true →
      (handleHTTP stream rules).written = resp403) ∧
    ((httpParse stream).host = none → (handleHTTP stream rules).written = []) ∧
    hasPrefB (str2bytes "HTTP/1.1 403 Forbidden") resp403 = true ∧
    tlsAlert.length = 7 := by
  refine ⟨?_, ?_, ?_, by decide, by decide⟩
  · intro h
    unfold handleHTTPS
    rcases h with ⟨e, hE⟩ | ⟨hn, hE, hB⟩
    · rw [hE]
    · rw [hE]
      simp [hB]
  · intro hn hHost hB
    unfold handleHTTP
    obtain ⟨rl, hRl⟩ := httpParse_reqLine_of_host hHost
    dsimp only
    rw [hRl, hHost]
    dsimp only
    simp [hB]
  · intro hN
    unfold handleHTTP
    dsimp only
    rw [hN]
    cases hRl : (httpParse stream).reqLine <;> rfl

/-- Witness for claim C5's amended theorem: all three handler behaviours
at concrete inputs. -/
theorem blocked_closer_shape_w :
    (handleHTTPS d17 [acom]).2 = tlsAlert ∧
    (handleHTTP httpReq [acom]).written = resp403 ∧
    (handleHTTP noHostReq [acom]).written = [] :=
  ⟨(blocked_closer_shape d17 httpReq [acom]).1 (Or.inl ⟨.notHandshake, by decide⟩),
   (blocked_closer_shape d17 httpReq [acom]).2.1 acom (by decide) (by decide),
   (blocked_closer_shape d17 noHostReq [acom]).2.2.1 (by decide)⟩

/-- Claim C7 is false of the code: both extraction modes return the raw
hostname.  `chA` carries the SNI value `"A.com."` and `httpReqUpper`
the Host value `"A.com."`; both are returned with the uppercase byte
and the trailing dot intact. -/
theorem extract_raw_hostname_counter :
    ExtractSNI chA = .ok hostAdot ∧
    (httpParse httpReqUpper).host = some hostAdot ∧
    (∃ b ∈ hostAdot, 65 ≤ b ∧ b ≤ 90) ∧
    hostAdot.getLast? = some 46 := by decide

/-- Claim C7 as amended: the hostname either extractor returns is a
verbatim contiguous byte segment of its input — no lowercasing and no
trailing-dot stripping is applied at extraction (normalisation happens
inside `isBlocked` instead). -/
theorem extract_returns_verbatim :
    (∀ data hn, ExtractSNI data = .ok hn → SubSeg hn data) ∧
    (∀ s hn, (httpParse s).host = some hn → SubSeg hn s) :=
  ⟨fun _ _ h => extractSNI_subSeg h, fun _ _ h => httpParse_host_subSeg h⟩

/-- Witness for claim C7's amended theorem at the uppercase inputs. -/
theorem extract_returns_verbatim_w :
    SubSeg hostAdot chA ∧ SubSeg hostAdot httpReqUpper :=
  ⟨extract_returns_verbatim.1 chA hostAdot (by decide),
   extract_returns_verbatim.2 httpReqUpper hostAdot (by decide)⟩

lemma mem_insertIP (acc : List (List Nat)) (ip x : List Nat) :
    x ∈ insertIP acc ip ↔ x ∈ acc ∨ x = ip := by
  unfold insertIP
  split
  · rename_i hmem
    constructor
    · exact Or.inl
    · rintro (h | rfl)
      · exact h
      · exact hmem
  · simp [List.mem_append]

lemma mem_insertIPs (ips : List (List Nat)) :
    ∀ (acc : List (List Nat)) (x : List Nat),
      x ∈ insertIPs acc ips ↔ x ∈ acc ∨ x ∈ ips := by
  induction ips with
  | nil => intro acc x; simp [insertIPs]
  | cons ip ips ih =>
    intro acc x
    show x ∈ insertIPs (insertIP acc ip) ips ↔ _
    rw [ih, mem_insertIP]
    simp [List.mem_cons]
    tauto

lemma nodup_insertIP (acc : List (List Nat)) (ip : List Nat)
    (h : acc.Nodup) : (insertIP acc ip).Nodup := by
  unfold insertIP
  split
  · exact h
  · rename_i hni
    rw [List.nodup_append]
    exact ⟨h, List.nodup_singleton _, by
      intro a ha hmem
      rw [List.mem_singleton] at hmem
      subst hmem
      exact hni ha⟩

lemma nodup_insertIPs (ips : List (List Nat)) :
    ∀ acc : List (List Nat), acc.Nodup → (insertIPs acc ips).Nodup := by
  induction ips with
  | nil => intro acc h; exact h
  | cons ip ips ih =>
    intro acc h
    exact ih _ (nodup_insertIP _ _ h)

lemma resolveStep_queried (oracle : List Nat → Option (List (List Nat)))
    (acc : List (List Nat) × List (List Nat)) (d x : List Nat) :
    x ∈ (resolveStep oracle acc d).1 ↔
      x ∈ acc.1 ∨ x = d ∨
        (hasPrefB (str2bytes "www.") d = false ∧ (∃ ips, oracle d = some ips) ∧
          x = str2bytes "www." ++ d) := by
  unfold resolveStep
  cases hO : oracle d with
  | none => simp [hO, List.mem_append]
  | some ips =>
    dsimp only
    split
    · rename_i hPre
      simp [hO, hPre, List.mem_append]
    · rename_i hPre
      have hPre' : hasPrefB (str2bytes "www.") d = false := by
        simpa using hPre
      cases hO2 : oracle (str2bytes "www." ++ d) <;>
        simp [hO, hO2, hPre', List.mem_append]

lemma resolveStep_result (oracle : List Nat → Option (List (List Nat)))
    (acc : List (List Nat) × List (List Nat)) (d x : List Nat) :
    x ∈ (resolveStep oracle acc d).2 ↔
      x ∈ acc.2 ∨
        (∃ ips, oracle d = some ips ∧ x ∈ ips) ∨
        (hasPrefB (str2bytes "www.") d = false ∧ (∃ ips, oracle d = some ips) ∧
          ∃ ips2, oracle (str2bytes "www." ++ d) = some ips2 ∧ x ∈ ips2) := by
  unfold resolveStep
  cases hO : oracle d with
  | none => simp [hO]
  | some ips =>
    dsimp only
    split
    · rename_i hPre
      simp [hO, hPre, mem_insertIPs]
    · rename_i hPre
      have hPre' : hasPrefB (str2bytes "www.") d = false := by
        simpa using hPre
      cases hO2 : oracle (str2bytes "www." ++ d)
      all_goals simp [hO, hO2, hPre', mem_insertIPs]
      all_goals tauto

lemma resolveStep_nodup (oracle : List Nat → Option (List (List Nat)))
    (acc : List (List Nat) × List (List Nat)) (d : List Nat)
    (h : acc.2.Nodup) : (resolveStep oracle acc d).2.Nodup := by
  unfold resolveStep
  cases oracle d with
  | none => exact h
  | some ips =>
    dsimp only
    split
    · exact nodup_insertIPs _ _ h
    · cases oracle (str2bytes "www." ++ d) <;> dsimp only <;>
        [exact nodup_insertIPs _ _ h;
         exact nodup_insertIPs _ _ (nodup_insertIPs _ _ h)]



lemma foldl_resolveStep_queried (oracle : List Nat → Option (List (List Nat)))
    (domains : List (List Nat)) :
    ∀ (acc : List (List Nat) × List (List Nat)) (x : List Nat),
      x ∈ (domains.foldl (resolveStep oracle) acc).1 ↔
        x ∈ acc.1 ∨ x ∈ domains ∨
          ∃ d ∈ domains, hasPrefB (str2bytes "www.") d = false ∧
            (∃ ips, oracle d = some ips) ∧ x = str2bytes "www." ++ d := by
  induction domains with
  | nil => intro acc x; simp
  | cons d ds ih =>
    intro acc x
    rw [List.foldl_cons, ih, resolveStep_queried]
    simp only [List.mem_cons, exists_eq_or_imp]
    itauto

lemma foldl_resolveStep_result (oracle : List Nat → Option (List (List Nat)))
    (domains : List (List Nat)) :
    ∀ (acc : List (List Nat) × List (List Nat)) (x : List Nat),
      x ∈ (domains.foldl (resolveStep oracle) acc).2 ↔
        x ∈ acc.2 ∨
          ∃ d ∈ domains,
            (∃ ips, oracle d = some ips ∧ x ∈ ips) ∨
            (hasPrefB (str2bytes "www.") d = false ∧ (∃ ips, oracle d = some ips) ∧
              ∃ ips2, oracle (str2bytes "www." ++ d) = some ips2 ∧ x ∈ ips2) := by
  induction domains with
  | nil => intro acc x; simp
  | cons d ds ih =>
    intro acc x
    rw [List.foldl_cons, ih, resolveStep_result]
    simp only [List.mem_cons, exists_eq_or_imp]
    itauto

lemma foldl_resolveStep_nodup (oracle : List Nat → Option (List (List Nat)))
    (domains : List (List Nat)) :
    ∀ acc : List (List Nat) × List (List Nat), acc.2.Nodup →
      (domains.foldl (resolveStep oracle) acc).2.Nodup := by
  induction domains with
  | nil => intro acc h; exact h
  | cons d ds ih =>
    intro acc h
    exact ih _ (resolveStep_nodup _ _ _ h)

/-- Claim C9 as amended: the resolver queries every rule, and the
`www.`-prefixed variant of a rule lacking that prefix exactly when the
base lookup succeeded (a failed base lookup skips the variant); no
lookup failure aborts the batch, and the result is precisely the
duplicate-free union of all successful lookups performed. -/
theorem resolver_batch_semantics (oracle : List Nat → Option (List (List Nat)))
    (domains : List (List Nat)) :
    (∀ x, x ∈ (ResolveT oracle domains).1 ↔
        x ∈ domains ∨
          ∃ d ∈ domains, hasPrefB (str2bytes "www.") d = false ∧
            (∃ ips, oracle d = some ips) ∧ x = str2bytes "www." ++ d) ∧
    (∀ x, x ∈ Resolve oracle domains ↔
        ∃ d ∈ domains,
          (∃ ips, oracle d = some ips ∧ x ∈ ips) ∨
          (hasPrefB (str2bytes "www.") d = false ∧ (∃ ips, oracle d = some ips) ∧
            ∃ ips2, oracle (str2bytes "www." ++ d) = some ips2 ∧ x ∈ ips2)) ∧
    (Resolve oracle domains).Nodup := by
  refine ⟨?_, ?_, ?_⟩
  · intro x
    rw [ResolveT, foldl_resolveStep_queried]
    simp
  · intro x
    rw [Resolve, ResolveT, foldl_resolveStep_result]
    simp
  · exact foldl_resolveStep_nodup _ _ _ List.nodup_nil

/-- Claim C9 is false of the code as stated: on an oracle where
`"a.com"` fails to resolve but `"www.a.com"` would resolve, the batch
over `["a.com"]` never queries `"www.a.com"` (the failed base lookup
`continue`s past the variant), and the result misses its address. -/
theorem resolver_skips_www_counter :
    (ResolveT o9 [acom]).1 = [acom] ∧
    ¬ str2bytes "www." ++ acom ∈ (ResolveT o9 [acom]).1 ∧
    Resolve o9 [acom] = [] ∧
    o9 (str2bytes "www." ++ acom) = some [[1]] := by decide

/-- Witness for claim C9's amended theorem: the base name is queried. -/
theorem resolver_batch_semantics_w :
    acom ∈ (ResolveT o9 [acom]).1 :=
  ((resolver_batch_semantics o9 [acom]).1 acom).mpr (Or.inl (by decide))

end Focusd
